import Mathlib

/-
Shallow embedding of the agent registry, grid layout engine and event
dispatch of the Codex visualizer (Phaser variant, `src/visualizer.ts`,
with `CodexScene.emit` from the same file).  JavaScript `Map`s are
modelled as association lists with JS `Map.set` semantics (replace the
existing entry in place, otherwise append), numbers that the code only
ever handles as non-negative integers are `Nat`, on-screen coordinates
are `Int` (a stacked row can place an agent above `y = 0`), and
`undefined` optional parameters are `Option`.
-/

namespace CodexViz

/-- Visual state of an agent: `'idle' | 'working' | 'done'`. -/
inductive CodexState
  | idle
  | working
  | done
deriving DecidableEq, Repr

/-- `DEFAULT_STATUS` record from the source. -/
def DEFAULT_STATUS : CodexState → String
  | .idle => "IDLE"
  | .working => "WORKING"
  | .done => "DONE"

/-- `STATUS_COLORS` record from the source. -/
def STATUS_COLORS : CodexState → String
  | .idle => "#9aa4b2"
  | .working => "#f6c453"
  | .done => "#8af28a"

/-- Animation-key fragment used by `createAnimations` and `Agent.setState`:
the Phaser keys are `hero-idle-r`, `hero-work-r`, `hero-done-r`. -/
def stateTag : CodexState → String
  | .idle => "idle"
  | .working => "work"
  | .done => "done"

/-- The Phaser animation key `hero-<tag>-<rowIndex>` played for a state. -/
def animKey (s : CodexState) (row : Nat) : String :=
  "hero-" ++ stateTag s ++ "-" ++ toString row

/-- `HERO_MAX_ROWS` constant from the source. -/
def HERO_MAX_ROWS : Nat := 3

/-- The observable fields of the `Agent` class: display name (label text),
the immutable animation row chosen at spawn, current visual state, status
text and colour, visibility of the hammer emote / done icon / spark
decoration, the log of `sprite.play` invocations (each entry is the
animation key passed to `play`; Phaser restarts the animation whenever
`play` is called without `ignoreIfPlaying`), and the container position. -/
structure Agent where
  name : String
  rowIndex : Nat
  state : CodexState
  statusText : String
  statusColor : String
  hammerVisible : Bool
  doneIconVisible : Bool
  sparkVisible : Bool
  playLog : List String
  x : Int
  y : Int
deriving DecidableEq, Repr

/-- `Agent.setName`: updates the label text only. -/
def Agent.setName (a : Agent) (nm : String) : Agent :=
  { a with name := nm }

/-- `Agent.setState(state, label?)` from the Phaser variant: stores the
state, plays the animation for the state (recorded in `playLog`), sets the
decoration visibilities, and sets the status text to `label ?? DEFAULT_STATUS[state]`
with the state's colour.  There is no same-state guard: `sprite.play` is
invoked on every call. -/
def Agent.setState (a : Agent) (s : CodexState) (label : Option String) : Agent :=
  let a1 := { a with state := s }
  let a2 :=
    match s with
    | .idle =>
        { a1 with playLog := a1.playLog ++ [animKey .idle a1.rowIndex]
                  hammerVisible := false
                  doneIconVisible := false
                  sparkVisible := false }
    | .working =>
        { a1 with playLog := a1.playLog ++ [animKey .working a1.rowIndex]
                  hammerVisible := true
                  doneIconVisible := false
                  sparkVisible := true }
    | .done =>
        { a1 with playLog := a1.playLog ++ [animKey .done a1.rowIndex]
                  hammerVisible := false
                  doneIconVisible := true
                  sparkVisible := false }
  { a2 with statusText := label.getD (DEFAULT_STATUS s)
            statusColor := STATUS_COLORS s }

/-- The `Agent` constructor: builds the display objects and then calls
`this.setState('idle')`, so the fresh agent ends idle with status text
`IDLE`, no decorations visible and one `play` of its idle animation. -/
def Agent.initAgent (nm : String) (row : Nat) : Agent :=
  Agent.setState
    { name := nm
      rowIndex := row
      state := .idle
      statusText := DEFAULT_STATUS .idle
      statusColor := "#aab4c4"
      hammerVisible := true
      doneIconVisible := true
      sparkVisible := true
      playLog := []
      x := 0
      y := 0 } .idle none

/-- Lookup in an association list modelling `Map.get` (first matching key). -/
def mlookup {α : Type} : List (String × α) → String → Option α
  | [], _ => none
  | (k, v) :: rest, id => if k = id then some v else mlookup rest id

/-- `Map.set`: replace the value of an existing key in place, otherwise
append the new entry at the end (JS `Map` preserves insertion order). -/
def mset {α : Type} : List (String × α) → String → α → List (String × α)
  | [], id, v => [(id, v)]
  | (k, w) :: rest, id, v =>
      if k = id then (k, v) :: rest else (k, w) :: mset rest id v

/-- `Map.delete`: drop the entry with the given key. -/
def merase {α : Type} (l : List (String × α)) (id : String) : List (String × α) :=
  l.filter (fun p => p.1 ≠ id)

/-- The key list of a modelled `Map`. -/
def mkeys {α : Type} (l : List (String × α)) : List String :=
  l.map Prod.fst

/-- The `AgentManager` state: the `agents` map, the `stateById` map, the
spawn-order list and the last recorded layout size.  `heroRows` is the
`heroLayout.rows` configuration value (sprite-sheet geometry) passed to
the manager at construction. -/
structure AgentManager where
  heroRows : Nat
  agents : List (String × Agent)
  stateById : List (String × CodexState)
  order : List String
  layoutW : Nat
  layoutH : Nat
deriving DecidableEq, Repr

/-- A freshly constructed manager: empty maps, empty order list,
layout size `{width: 0, height: 0}`. -/
def AgentManager.init (heroRows : Nat) : AgentManager :=
  { heroRows := heroRows
    agents := []
    stateById := []
    order := []
    layoutW := 0
    layoutH := 0 }

/-- `columns` computed by `layout`:
`Math.max(1, Math.floor(Math.max(1, width - padding * 2) / cellWidth))`
with `padding = 36`, `cellWidth = 160`.  `Nat` subtraction truncates at 0,
which agrees with the source because both sides clamp with `max 1`. -/
def columnsFor (width : Nat) : Nat :=
  max 1 (max 1 (width - 72) / 160)

/-- `groundY = Math.round(height * 0.72)`, written exactly over the
rationals: `round(18 * h / 25) = (36 * h + 25) / 50` in `Nat` division. -/
def groundYFor (height : Nat) : Nat :=
  (36 * height + 25) / 50

/-- `x = Math.round(padding + col * cellWidth + cellWidth * 0.5)` where
`col = index % columns`; all summands are integers so the rounding is the
identity. -/
def cellX (index columns : Nat) : Int :=
  ((36 + (index % columns) * 160 + 80 : Nat) : Int)

/-- `y = Math.round(groundY - row * cellHeight)` where
`row = Math.floor(index / columns)`; rows stack upward so `y` can go
negative on tall stacks. -/
def cellY (index columns groundY : Nat) : Int :=
  (groundY : Int) - ((index / columns : Nat) : Int) * 120

/-- One iteration of the `order.forEach((id, index) => ...)` loop of
`layout`: when the id is present in the agents map, its container is moved
to the cell of the given index (`agent.setPosition(x, y)`); ids without an
agent are skipped. -/
def placeStep (id : String) (index columns groundY : Nat)
    (ag : List (String × Agent)) : List (String × Agent) :=
  match mlookup ag id with
  | none => ag
  | some a => mset ag id { a with x := cellX index columns
                                  y := cellY index columns groundY }

/-- The whole `order.forEach` loop of `layout`. -/
def placeAgents (ord : List String) (index columns groundY : Nat)
    (ag : List (String × Agent)) : List (String × Agent) :=
  match ord with
  | [] => ag
  | id :: rest =>
      placeAgents rest (index + 1) columns groundY (placeStep id index columns groundY ag)

/-- `AgentManager.layout(width, height)`: records the size, returns early
when either dimension is 0, otherwise assigns every ordered agent its
grid cell. -/
def AgentManager.layout (m : AgentManager) (width height : Nat) : AgentManager :=
  let m1 := { m with layoutW := width, layoutH := height }
  if width = 0 ∨ height = 0 then m1
  else
    { m1 with agents := placeAgents m.order 0 (columnsFor width) (groundYFor height) m.agents }

/-- `AgentManager.spawn(id, name = 'Codex Agent')`: when the id exists the
name is updated and nothing else happens; otherwise a new idle agent is
created with `rowIndex = order.length % max(1, min(HERO_MAX_ROWS, heroRows))`,
registered in both maps, appended to the order list, and a re-layout at
the recorded size runs. -/
def AgentManager.spawn (m : AgentManager) (id : String) (nameOpt : Option String) :
    AgentManager :=
  let nm := nameOpt.getD "Codex Agent"
  match mlookup m.agents id with
  | some existing =>
      { m with agents := mset m.agents id (existing.setName nm) }
  | none =>
      let availableRows := max 1 (min HERO_MAX_ROWS m.heroRows)
      let row := m.order.length % availableRows
      let m1 := { m with agents := mset m.agents id (Agent.initAgent nm row)
                         stateById := mset m.stateById id .idle
                         order := m.order ++ [id] }
      m1.layout m.layoutW m.layoutH

/-- `AgentManager.setState(id, state, label?)`: silently ignores unknown
ids, otherwise forwards to the agent and mirrors the state in `stateById`. -/
def AgentManager.setState (m : AgentManager) (id : String) (s : CodexState)
    (label : Option String) : AgentManager :=
  match mlookup m.agents id with
  | none => m
  | some a =>
      { m with agents := mset m.agents id (a.setState s label)
               stateById := mset m.stateById id s }

/-- `AgentManager.remove(id)`: silently ignores unknown ids, otherwise
destroys the agent, deletes it from both maps and the order list, and
re-layouts at the recorded size. -/
def AgentManager.remove (m : AgentManager) (id : String) : AgentManager :=
  match mlookup m.agents id with
  | none => m
  | some _ =>
      let m1 := { m with agents := merase m.agents id
                         stateById := merase m.stateById id
                         order := m.order.filter (fun e => e ≠ id) }
      m1.layout m.layoutW m.layoutH

/-- The `{total, working, idle, done}` record returned by `getSummary`. -/
structure Summary where
  total : Nat
  working : Nat
  idle : Nat
  done : Nat
deriving DecidableEq, Repr

/-- `state === 'working'` test of the summary loop. -/
def isWorking (p : String × CodexState) : Bool :=
  match p.2 with
  | .working => true
  | _ => false

/-- `state === 'idle'` test of the summary loop. -/
def isIdle (p : String × CodexState) : Bool :=
  match p.2 with
  | .idle => true
  | _ => false

/-- `state === 'done'` test of the summary loop. -/
def isDone (p : String × CodexState) : Bool :=
  match p.2 with
  | .done => true
  | _ => false

/-- `AgentManager.getSummary()`: one pass over `stateById.values()`
incrementing a counter per state, with `total = stateById.size`. -/
def AgentManager.getSummary (m : AgentManager) : Summary :=
  { total := m.stateById.length
    working := m.stateById.countP isWorking
    idle := m.stateById.countP isIdle
    done := m.stateById.countP isDone }

/-- The `CodexEvent` union consumed by `emit`. -/
inductive CodexEvent
  | spawn (id : String) (nm : Option String)
  | work (id : String) (label : Option String)
  | idle (id : String) (label : Option String)
  | done (id : String) (label : Option String)
  | remove (id : String)
deriving DecidableEq, Repr

/-- The `switch (payload.type)` dispatch inside `emit`. -/
def applyEvent (m : AgentManager) : CodexEvent → AgentManager
  | .spawn id nm => m.spawn id nm
  | .work id label => m.setState id .working label
  | .idle id label => m.setState id .idle label
  | .done id label => m.setState id .done label
  | .remove id => m.remove id

/-- A whole event history applied to a freshly constructed manager. -/
def runEvents (heroRows : Nat) (evs : List CodexEvent) : AgentManager :=
  evs.foldl applyEvent (AgentManager.init heroRows)

/-- The `label ? ' - label' : ''` suffix of `formatEvent`; a JS empty
string is falsy, so an explicit empty label produces no suffix. -/
def labelSuffix : Option String → String
  | none => ""
  | some l => if l = "" then "" else " - " ++ l

/-- `formatEvent` from the source, producing the HUD status line. -/
def formatEvent : CodexEvent → String
  | .spawn id nm => "Spawned " ++ nm.getD id
  | .remove id => "Removed " ++ id
  | .work id label => id ++ " " ++ String.toUpper "work" ++ labelSuffix label
  | .idle id label => id ++ " " ++ String.toUpper "idle" ++ labelSuffix label
  | .done id label => id ++ " " ++ String.toUpper "done" ++ labelSuffix label

/-- The part of `CodexScene` the event path touches: the manager and the
HUD's most recently displayed status line. -/
structure CodexScene where
  agentManager : AgentManager
  hudLastLine : String
deriving DecidableEq, Repr

/-- A scene right after `create()`: fresh manager, HUD line
`Awaiting tasks...` (set by the `GameHud` constructor). -/
def CodexScene.start (heroRows : Nat) : CodexScene :=
  { agentManager := AgentManager.init heroRows
    hudLastLine := "Awaiting tasks..." }

/-- The `for (const payload of events)` loop of `emit`, threading the
manager and the running `lastEvent` variable. -/
def emitLoop : AgentManager → Option CodexEvent → List CodexEvent →
    AgentManager × Option CodexEvent
  | m, lastEv, [] => (m, lastEv)
  | m, _, ev :: rest => emitLoop (applyEvent m ev) (some ev) rest

/-- `CodexScene.emit(event | event[])` after array normalisation: apply
every event in order, then, if any event was seen, display the formatted
last one on the HUD. -/
def CodexScene.emit (sc : CodexScene) (evs : List CodexEvent) : CodexScene :=
  let r := emitLoop sc.agentManager none evs
  match r.2 with
  | none => { sc with agentManager := r.1 }
  | some lastEv => { agentManager := r.1, hudLastLine := formatEvent lastEv }

/-- Position of an agent as the pair of its container coordinates. -/
def agentPos (m : AgentManager) (id : String) : Option (Int × Int) :=
  (mlookup m.agents id).map (fun a => (a.x, a.y))

end CodexViz

namespace CodexViz

section MapLemmas

variable {α : Type}

theorem mkeys_nil : mkeys ([] : List (String × α)) = [] := rfl

theorem mkeys_cons (k : String) (w : α) (rest : List (String × α)) :
    mkeys ((k, w) :: rest) = k :: mkeys rest := rfl

theorem mlookup_mset_self (l : List (String × α)) (id : String) (v : α) :
    mlookup (mset l id v) id = some v := by
  induction l with
  | nil => simp [mset, mlookup]
  | cons p rest ih =>
      obtain ⟨k, w⟩ := p
      by_cases h : k = id
      · simp [mset, h, mlookup]
      · simp [mset, h, mlookup, ih]

theorem mlookup_mset_ne (l : List (String × α)) (key id : String) (v : α)
    (hne : key ≠ id) : mlookup (mset l key v) id = mlookup l id := by
  have hne2 : id ≠ key := fun hEq => hne hEq.symm
  induction l with
  | nil => simp [mset, mlookup, hne]
  | cons p rest ih =>
      obtain ⟨k, w⟩ := p
      by_cases h : k = key
      · subst h
        simp [mset, mlookup, hne]
      · by_cases h2 : k = id
        · simp [mset, h, mlookup, h2, hne2]
        · simp [mset, h, mlookup, h2, ih]

theorem mkeys_mset_mem (l : List (String × α)) (id : String) (v : α)
    (h : id ∈ mkeys l) : mkeys (mset l id v) = mkeys l := by
  induction l with
  | nil => simp [mkeys_nil] at h
  | cons p rest ih =>
      obtain ⟨k, w⟩ := p
      by_cases hk : k = id
      · simp [mset, hk, mkeys_cons]
      · have hmem : id ∈ mkeys rest := by
          rw [mkeys_cons] at h
          rcases List.mem_cons.mp h with hEq | hmem
          · exact absurd hEq.symm hk
          · exact hmem
        rw [mset]
        rw [if_neg hk]
        rw [mkeys_cons, mkeys_cons, ih hmem]

theorem mkeys_mset_not_mem (l : List (String × α)) (id : String) (v : α)
    (h : id ∉ mkeys l) : mkeys (mset l id v) = mkeys l ++ [id] := by
  induction l with
  | nil => simp [mset, mkeys_cons, mkeys_nil]
  | cons p rest ih =>
      obtain ⟨k, w⟩ := p
      rw [mkeys_cons] at h
      have hk : k ≠ id := fun hEq => h (hEq ▸ List.mem_cons_self k (mkeys rest))
      have hrest : id ∉ mkeys rest := fun hmem => h (List.mem_cons_of_mem k hmem)
      rw [mset]
      rw [if_neg hk]
      rw [mkeys_cons, mkeys_cons, ih hrest]
      rfl

theorem mlookup_eq_none_iff (l : List (String × α)) (id : String) :
    mlookup l id = none ↔ id ∉ mkeys l := by
  induction l with
  | nil => simp [mlookup, mkeys_nil]
  | cons p rest ih =>
      obtain ⟨k, w⟩ := p
      rw [mkeys_cons]
      by_cases h : k = id
      · subst h
        simp [mlookup]
      · rw [mlookup]
        rw [if_neg h]
        rw [ih]
        constructor
        · intro hmem hcons
          rcases List.mem_cons.mp hcons with hEq | hmem2
          · exact h hEq.symm
          · exact hmem hmem2
        · intro hncons hmem
          exact hncons (List.mem_cons_of_mem k hmem)

theorem mem_mkeys_of_lookup (l : List (String × α)) (id : String) (v : α)
    (h : mlookup l id = some v) : id ∈ mkeys l := by
  by_contra hmem
  rw [← mlookup_eq_none_iff] at hmem
  rw [h] at hmem
  exact Option.noConfusion hmem

theorem merase_nil (id : String) : merase ([] : List (String × α)) id = [] := rfl

theorem merase_cons (k : String) (w : α) (rest : List (String × α)) (id : String) :
    merase ((k, w) :: rest) id =
      if k = id then merase rest id else (k, w) :: merase rest id := by
  by_cases h : k = id <;> simp [merase, List.filter_cons, h]

theorem mlookup_merase_ne (l : List (String × α)) (key id : String)
    (hne : key ≠ id) : mlookup (merase l key) id = mlookup l id := by
  induction l with
  | nil => simp [merase_nil, mlookup]
  | cons p rest ih =>
      obtain ⟨k, w⟩ := p
      rw [merase_cons]
      by_cases hk : k = key
      · rw [if_pos hk, ih, mlookup, if_neg (by rw [hk]; exact hne)]
      · rw [if_neg hk, mlookup, mlookup]
        by_cases h2 : k = id
        · rw [if_pos h2, if_pos h2]
        · rw [if_neg h2, if_neg h2, ih]

theorem mkeys_merase (l : List (String × α)) (id : String) :
    mkeys (merase l id) = (mkeys l).filter (fun e => e ≠ id) := by
  induction l with
  | nil => rfl
  | cons p rest ih =>
      obtain ⟨k, w⟩ := p
      rw [merase_cons]
      by_cases hk : k = id
      · rw [if_pos hk, ih, mkeys_cons, List.filter_cons, if_neg (by simp [hk])]
      · rw [if_neg hk, mkeys_cons, mkeys_cons, List.filter_cons, if_pos (by simp [hk]), ih]

theorem mkeys_length (l : List (String × α)) : (mkeys l).length = l.length := by
  simp [mkeys]

end MapLemmas

end CodexViz

namespace CodexViz

section AgentLemmas

theorem setState_state (a : Agent) (s : CodexState) (l : Option String) :
    (a.setState s l).state = s := by
  cases s <;> rfl

theorem setState_name (a : Agent) (s : CodexState) (l : Option String) :
    (a.setState s l).name = a.name := by
  cases s <;> rfl

theorem setState_rowIndex (a : Agent) (s : CodexState) (l : Option String) :
    (a.setState s l).rowIndex = a.rowIndex := by
  cases s <;> rfl

theorem setName_eq (a : Agent) (nm : String) : a.setName nm = { a with name := nm } := rfl

end AgentLemmas

section LayoutLemmas

theorem placeAgents_nil (index columns groundY : Nat) (ag : List (String × Agent)) :
    placeAgents [] index columns groundY ag = ag := rfl

theorem mkeys_placeStep (id : String) (index columns groundY : Nat)
    (ag : List (String × Agent)) :
    mkeys (placeStep id index columns groundY ag) = mkeys ag := by
  cases h : mlookup ag id with
  | none => simp [placeStep, h]
  | some a =>
      rw [placeStep, h]
      exact mkeys_mset_mem ag id _ (mem_mkeys_of_lookup ag id a h)

theorem mkeys_placeAgents (ord : List String) (index columns groundY : Nat)
    (ag : List (String × Agent)) :
    mkeys (placeAgents ord index columns groundY ag) = mkeys ag := by
  induction ord generalizing index ag with
  | nil => rfl
  | cons hd rest ih =>
      rw [placeAgents, ih, mkeys_placeStep]

theorem layout_stateById (m : AgentManager) (w h : Nat) :
    (m.layout w h).stateById = m.stateById := by
  by_cases hc : w = 0 ∨ h = 0 <;> simp [AgentManager.layout, hc]

theorem layout_order (m : AgentManager) (w h : Nat) :
    (m.layout w h).order = m.order := by
  by_cases hc : w = 0 ∨ h = 0 <;> simp [AgentManager.layout, hc]

theorem layout_heroRows (m : AgentManager) (w h : Nat) :
    (m.layout w h).heroRows = m.heroRows := by
  by_cases hc : w = 0 ∨ h = 0 <;> simp [AgentManager.layout, hc]

theorem layout_mkeys_agents (m : AgentManager) (w h : Nat) :
    mkeys (m.layout w h).agents = mkeys m.agents := by
  by_cases hc : w = 0 ∨ h = 0 <;> simp [AgentManager.layout, hc, mkeys_placeAgents]

end LayoutLemmas

/-- The registry consistency invariant: the key lists of both maps are
exactly the order list, and the order list has no duplicates. -/
def Consistent (m : AgentManager) : Prop :=
  mkeys m.agents = m.order ∧ mkeys m.stateById = m.order ∧ m.order.Nodup

section InvariantLemmas

theorem consistent_init (heroRows : Nat) : Consistent (AgentManager.init heroRows) :=
  ⟨rfl, rfl, List.nodup_nil⟩

theorem consistent_layout (m : AgentManager) (w h : Nat) (hm : Consistent m) :
    Consistent (m.layout w h) := by
  obtain ⟨h1, h2, h3⟩ := hm
  refine ⟨?_, ?_, ?_⟩
  · rw [layout_mkeys_agents, layout_order, h1]
  · rw [layout_stateById, layout_order, h2]
  · rw [layout_order]
    exact h3

theorem consistent_spawn (m : AgentManager) (id : String) (nm : Option String)
    (hm : Consistent m) : Consistent (m.spawn id nm) := by
  obtain ⟨h1, h2, h3⟩ := hm
  cases hlk : mlookup m.agents id with
  | some existing =>
      simp only [AgentManager.spawn, hlk]
      refine ⟨?_, h2, h3⟩
      rw [mkeys_mset_mem m.agents id _ (mem_mkeys_of_lookup m.agents id existing hlk)]
      exact h1
  | none =>
      have hnotmem : id ∉ mkeys m.agents := (mlookup_eq_none_iff m.agents id).mp hlk
      have hnotord : id ∉ m.order := h1 ▸ hnotmem
      have hnotst : id ∉ mkeys m.stateById := h2 ▸ hnotord
      simp only [AgentManager.spawn, hlk]
      apply consistent_layout
      refine ⟨?_, ?_, ?_⟩
      · rw [mkeys_mset_not_mem m.agents id _ hnotmem, h1]
      · rw [mkeys_mset_not_mem m.stateById id _ hnotst, h2]
      · rw [List.nodup_append]
        exact ⟨h3, List.nodup_singleton id, by
          intro a ha hb
          rw [List.mem_singleton] at hb
          exact hnotord (hb ▸ ha)⟩

theorem consistent_setState (m : AgentManager) (id : String) (s : CodexState)
    (label : Option String) (hm : Consistent m) : Consistent (m.setState id s label) := by
  obtain ⟨h1, h2, h3⟩ := hm
  cases hlk : mlookup m.agents id with
  | none => simp only [AgentManager.setState, hlk]; exact ⟨h1, h2, h3⟩
  | some a =>
      have hmem : id ∈ mkeys m.agents := mem_mkeys_of_lookup m.agents id a hlk
      have hmemst : id ∈ mkeys m.stateById := by
        rw [h2, ← h1]
        exact hmem
      simp only [AgentManager.setState, hlk]
      refine ⟨?_, ?_, h3⟩
      · rw [mkeys_mset_mem m.agents id _ hmem]
        exact h1
      · rw [mkeys_mset_mem m.stateById id _ hmemst]
        exact h2

theorem consistent_remove (m : AgentManager) (id : String) (hm : Consistent m) :
    Consistent (m.remove id) := by
  obtain ⟨h1, h2, h3⟩ := hm
  cases hlk : mlookup m.agents id with
  | none => simp only [AgentManager.remove, hlk]; exact ⟨h1, h2, h3⟩
  | some a =>
      simp only [AgentManager.remove, hlk]
      apply consistent_layout
      refine ⟨?_, ?_, ?_⟩
      · rw [mkeys_merase, h1]
      · rw [mkeys_merase, h2]
      · exact List.Nodup.filter _ h3

theorem consistent_applyEvent (m : AgentManager) (ev : CodexEvent)
    (hm : Consistent m) : Consistent (applyEvent m ev) := by
  cases ev with
  | spawn id nm => exact consistent_spawn m id nm hm
  | work id label => exact consistent_setState m id .working label hm
  | idle id label => exact consistent_setState m id .idle label hm
  | done id label => exact consistent_setState m id .done label hm
  | remove id => exact consistent_remove m id hm

theorem consistent_foldl (evs : List CodexEvent) (m : AgentManager)
    (hm : Consistent m) : Consistent (evs.foldl applyEvent m) := by
  induction evs generalizing m with
  | nil => exact hm
  | cons ev rest ih => exact ih (applyEvent m ev) (consistent_applyEvent m ev hm)

theorem consistent_runEvents (heroRows : Nat) (evs : List CodexEvent) :
    Consistent (runEvents heroRows evs) :=
  consistent_foldl evs (AgentManager.init heroRows) (consistent_init heroRows)

end InvariantLemmas

end CodexViz

namespace CodexViz

theorem countP_states (l : List (String × CodexState)) :
    l.countP isWorking + l.countP isIdle + l.countP isDone = l.length := by
  induction l with
  | nil => rfl
  | cons p rest ih =>
      obtain ⟨k, s⟩ := p
      cases s <;> simp [List.countP_cons, isWorking, isIdle, isDone] <;> omega

theorem total_eq_agents_length (m : AgentManager) (hm : Consistent m) :
    m.getSummary.total = m.agents.length := by
  obtain ⟨h1, h2, _⟩ := hm
  show m.stateById.length = m.agents.length
  calc m.stateById.length
      = (mkeys m.stateById).length := (mkeys_length m.stateById).symm
    _ = m.order.length := by rw [h2]
    _ = (mkeys m.agents).length := by rw [h1]
    _ = m.agents.length := mkeys_length m.agents

/-- Claim C2: for every sequence of spawn/setState/remove operations applied
to an initially empty registry, the summary counts satisfy
`working + idle + done = total`, and `total` equals the number of agents
currently in the registry (the size of the agents map). -/
theorem summary_counts_sum (heroRows : Nat) (evs : List CodexEvent) :
    (runEvents heroRows evs).getSummary.working + (runEvents heroRows evs).getSummary.idle +
        (runEvents heroRows evs).getSummary.done = (runEvents heroRows evs).getSummary.total ∧
    (runEvents heroRows evs).getSummary.total = (runEvents heroRows evs).agents.length := by
  refine ⟨countP_states _, ?_⟩
  exact total_eq_agents_length _ (consistent_runEvents heroRows evs)

/-- Claim C9: in the Phaser-variant `AgentManager`, after every sequence of
spawn/setState/remove operations the key set of the agents map equals the
key set of `stateById`, the order list is exactly that key list (hence each
key occurs exactly once, no duplicates and no stale ids), and
`getSummary().total` equals the number of live agents. -/
theorem registry_maps_aligned (heroRows : Nat) (evs : List CodexEvent) :
    mkeys (runEvents heroRows evs).agents = mkeys (runEvents heroRows evs).stateById ∧
    (runEvents heroRows evs).order = mkeys (runEvents heroRows evs).agents ∧
    (runEvents heroRows evs).order.Nodup ∧
    (runEvents heroRows evs).getSummary.total = (runEvents heroRows evs).agents.length := by
  obtain ⟨h1, h2, h3⟩ := consistent_runEvents heroRows evs
  exact ⟨by rw [h1, h2], h1.symm, h3,
    total_eq_agents_length _ (consistent_runEvents heroRows evs)⟩

/-- Claim C4: `setState` and `remove` on an id that is not present in the
registry are silent no-ops: the manager (agent map, state map, order list,
layout size) is returned unchanged, and in particular the registry size
after `remove` equals the size before. -/
theorem unknown_id_silent_noop (m : AgentManager) (id : String) (s : CodexState)
    (label : Option String) (h : mlookup m.agents id = none) :
    m.setState id s label = m ∧ m.remove id = m ∧
    (m.remove id).agents.length = m.agents.length := by
  have hs : m.setState id s label = m := by simp [AgentManager.setState, h]
  have hr : m.remove id = m := by simp [AgentManager.remove, h]
  exact ⟨hs, hr, by rw [hr]⟩

/-- Witness for C4 at a concrete registry and unknown id. -/
theorem unknown_id_silent_noop_witness :
    (AgentManager.init 3).setState "ghost" CodexState.working none = AgentManager.init 3 ∧
    (AgentManager.init 3).remove "ghost" = AgentManager.init 3 ∧
    ((AgentManager.init 3).remove "ghost").agents.length =
      (AgentManager.init 3).agents.length :=
  unknown_id_silent_noop (AgentManager.init 3) "ghost" CodexState.working none rfl

/-- Claim C10: `layout` is total and safe: the computed column count is at
least 1 for every viewport width (so the `index % columns` and
`index / columns` of the placement loop never divide by zero), and when
either dimension is 0 the call only records the size, leaving every agent
and the rest of the manager unchanged. -/
theorem layout_total_safe (m : AgentManager) (w h : Nat) :
    1 ≤ columnsFor w ∧
    (w = 0 ∨ h = 0 → m.layout w h = { m with layoutW := w, layoutH := h }) := by
  constructor
  · exact Nat.le_max_left 1 _
  · intro hc
    simp only [AgentManager.layout]
    rw [if_pos hc]

/-- Witness for C10 at width 0. -/
theorem layout_total_safe_witness :
    1 ≤ columnsFor 0 ∧
    (AgentManager.init 3).layout 0 5 =
      { AgentManager.init 3 with layoutW := 0, layoutH := 5 } :=
  ⟨(layout_total_safe (AgentManager.init 3) 0 5).1,
   (layout_total_safe (AgentManager.init 3) 0 5).2 (Or.inl rfl)⟩

end CodexViz

namespace CodexViz

theorem spawn_existing_eq (m : AgentManager) (id nm : String) (a : Agent)
    (h : mlookup m.agents id = some a) :
    m.spawn id (some nm) = { m with agents := mset m.agents id { a with name := nm } } := by
  simp [AgentManager.spawn, h, Agent.setName]

theorem setState_found_eq (m : AgentManager) (id : String) (s : CodexState)
    (label : Option String) (a : Agent) (h : mlookup m.agents id = some a) :
    m.setState id s label =
      { m with agents := mset m.agents id (a.setState s label)
               stateById := mset m.stateById id s } := by
  simp [AgentManager.setState, h]

/-- Claim C1: spawning an id that is already present updates only that
agent's display name: the agent keeps its visual state, status label and
every other field, the state map and the order list are unchanged, and no
new agent is created (the agent map's key list is unchanged).  In
particular, after `spawn(A,"x"); setState(A,'working'); spawn(A,"y")` the
agent's state is `working` and its name is `"y"`. -/
theorem spawn_existing_updates_name_only (m : AgentManager) (id nm : String) (a : Agent)
    (h : mlookup m.agents id = some a) :
    m.spawn id (some nm) = { m with agents := mset m.agents id { a with name := nm } } ∧
    mlookup (m.spawn id (some nm)).agents id = some { a with name := nm } ∧
    (m.spawn id (some nm)).stateById = m.stateById ∧
    (m.spawn id (some nm)).order = m.order ∧
    mkeys (m.spawn id (some nm)).agents = mkeys m.agents ∧
    ((mlookup (((m.spawn id (some "x")).setState id CodexState.working none).spawn id
        (some "y")).agents id).map Agent.state = some CodexState.working ∧
     (mlookup (((m.spawn id (some "x")).setState id CodexState.working none).spawn id
        (some "y")).agents id).map Agent.name = some "y" ∧
     mlookup (((m.spawn id (some "x")).setState id CodexState.working none).spawn id
        (some "y")).stateById id = some CodexState.working) := by
  have he := spawn_existing_eq m id nm a h
  have hmem : id ∈ mkeys m.agents := mem_mkeys_of_lookup m.agents id a h
  refine ⟨he, ?_, ?_, ?_, ?_, ?_⟩
  · rw [he]
    exact mlookup_mset_self m.agents id _
  · rw [he]
  · rw [he]
  · rw [he]
    exact mkeys_mset_mem m.agents id _ hmem
  · have hx := spawn_existing_eq m id "x" a h
    have hlk1 : mlookup (m.spawn id (some "x")).agents id = some { a with name := "x" } := by
      rw [hx]
      exact mlookup_mset_self m.agents id _
    have hst := setState_found_eq (m.spawn id (some "x")) id CodexState.working none
      { a with name := "x" } hlk1
    have hlk2 : mlookup ((m.spawn id (some "x")).setState id CodexState.working none).agents
        id = some (Agent.setState { a with name := "x" } CodexState.working none) := by
      rw [hst]
      exact mlookup_mset_self _ id _
    have hy := spawn_existing_eq ((m.spawn id (some "x")).setState id CodexState.working none)
      id "y" (Agent.setState { a with name := "x" } CodexState.working none) hlk2
    have hlk3 : mlookup (((m.spawn id (some "x")).setState id CodexState.working none).spawn id
        (some "y")).agents id =
        some { Agent.setState { a with name := "x" } CodexState.working none with name := "y" } := by
      rw [hy]
      exact mlookup_mset_self _ id _
    refine ⟨?_, ?_, ?_⟩
    · rw [hlk3]
      simp [setState_state]
    · rw [hlk3]
      simp
    · rw [hy, hst]
      show mlookup (mset (m.spawn id (some "x")).stateById id CodexState.working) id =
        some CodexState.working
      exact mlookup_mset_self _ id _

/-- Concrete registry used by the C1 witness: one agent `"a"` named `"n"`. -/
def wRegistry : AgentManager :=
  { heroRows := 3
    agents := [("a", Agent.initAgent "n" 0)]
    stateById := [("a", CodexState.idle)]
    order := ["a"]
    layoutW := 0
    layoutH := 0 }

/-- Witness for C1 at the concrete registry `wRegistry`. -/
theorem spawn_existing_updates_name_only_witness :
    wRegistry.spawn "a" (some "z") =
      { wRegistry with
          agents := mset wRegistry.agents "a" { Agent.initAgent "n" 0 with name := "z" } } ∧
    mlookup (wRegistry.spawn "a" (some "z")).agents "a" =
      some { Agent.initAgent "n" 0 with name := "z" } ∧
    (wRegistry.spawn "a" (some "z")).stateById = wRegistry.stateById ∧
    (wRegistry.spawn "a" (some "z")).order = wRegistry.order ∧
    mkeys (wRegistry.spawn "a" (some "z")).agents = mkeys wRegistry.agents ∧
    ((mlookup (((wRegistry.spawn "a" (some "x")).setState "a" CodexState.working none).spawn "a"
        (some "y")).agents "a").map Agent.state = some CodexState.working ∧
     (mlookup (((wRegistry.spawn "a" (some "x")).setState "a" CodexState.working none).spawn "a"
        (some "y")).agents "a").map Agent.name = some "y" ∧
     mlookup (((wRegistry.spawn "a" (some "x")).setState "a" CodexState.working none).spawn "a"
        (some "y")).stateById "a" = some CodexState.working) :=
  spawn_existing_updates_name_only wRegistry "a" "z" (Agent.initAgent "n" 0) rfl

end CodexViz

namespace CodexViz

/-- Position of an agent entry inside a raw agents map. -/
def pairPos (ag : List (String × Agent)) (id : String) : Option (Int × Int) :=
  (mlookup ag id).map (fun a => (a.x, a.y))

theorem agentPos_eq_pairPos (m : AgentManager) (id : String) :
    agentPos m id = pairPos m.agents id := rfl

theorem lookup_some_of_mem {α : Type} (l : List (String × α)) (id : String)
    (h : id ∈ mkeys l) : ∃ v, mlookup l id = some v := by
  cases hl : mlookup l id with
  | none => exact absurd h ((mlookup_eq_none_iff l id).mp hl)
  | some v => exact ⟨v, rfl⟩

theorem pairPos_placeStep_ne (hd id : String) (idx cols gy : Nat)
    (ag : List (String × Agent)) (hne : hd ≠ id) :
    pairPos (placeStep hd idx cols gy ag) id = pairPos ag id := by
  cases hl : mlookup ag hd with
  | none => rw [placeStep, hl]
  | some a =>
      rw [placeStep, hl]
      unfold pairPos
      rw [mlookup_mset_ne ag hd id _ hne]

theorem pairPos_placeStep_self (hd : String) (idx cols gy : Nat)
    (ag : List (String × Agent)) (a : Agent) (hl : mlookup ag hd = some a) :
    pairPos (placeStep hd idx cols gy ag) hd = some (cellX idx cols, cellY idx cols gy) := by
  rw [placeStep, hl]
  unfold pairPos
  rw [mlookup_mset_self]
  rfl

theorem mem_mkeys_placeStep (hd id : String) (idx cols gy : Nat)
    (ag : List (String × Agent)) (h : id ∈ mkeys ag) :
    id ∈ mkeys (placeStep hd idx cols gy ag) := by
  rw [mkeys_placeStep]
  exact h

theorem placeAgents_pos_eq (ord : List String) (idx cols gy : Nat)
    (ag₁ ag₂ : List (String × Agent)) (id : String)
    (h₁ : id ∈ mkeys ag₁) (h₂ : id ∈ mkeys ag₂)
    (hp : id ∈ ord ∨ pairPos ag₁ id = pairPos ag₂ id) :
    pairPos (placeAgents ord idx cols gy ag₁) id =
      pairPos (placeAgents ord idx cols gy ag₂) id := by
  induction ord generalizing idx ag₁ ag₂ with
  | nil =>
      rcases hp with hp | hp
      · exact absurd hp (List.not_mem_nil id)
      · simpa [placeAgents] using hp
  | cons hd rest ih =>
      rw [placeAgents, placeAgents]
      apply ih _ _ _ (mem_mkeys_placeStep hd id idx cols gy ag₁ h₁)
        (mem_mkeys_placeStep hd id idx cols gy ag₂ h₂)
      by_cases hhd : hd = id
      · subst hhd
        obtain ⟨a₁, ha₁⟩ := lookup_some_of_mem ag₁ hd h₁
        obtain ⟨a₂, ha₂⟩ := lookup_some_of_mem ag₂ hd h₂
        right
        rw [pairPos_placeStep_self hd idx cols gy ag₁ a₁ ha₁,
            pairPos_placeStep_self hd idx cols gy ag₂ a₂ ha₂]
      · rw [pairPos_placeStep_ne hd id idx cols gy ag₁ hhd,
            pairPos_placeStep_ne hd id idx cols gy ag₂ hhd]
        rcases hp with hp | hp
        · rcases List.mem_cons.mp hp with hEq | hmem
          · exact absurd hEq.symm hhd
          · exact Or.inl hmem
        · exact Or.inr hp

/-- Claim C3: the layout is a deterministic function of the order list and
the viewport size: two managers with the same order list, laid out at the
same nonzero width and height, assign every agent present in both maps
and in the order list the identical `(x, y)` position (and therefore the
identical grid cell, since the position is computed from the cell);
no randomness enters the computation. -/
theorem layout_deterministic (m₁ m₂ : AgentManager) (w h : Nat) (id : String)
    (hord : m₁.order = m₂.order) (hw : w ≠ 0) (hh : h ≠ 0)
    (h₁ : id ∈ mkeys m₁.agents) (h₂ : id ∈ mkeys m₂.agents) (hin : id ∈ m₁.order) :
    agentPos (m₁.layout w h) id = agentPos (m₂.layout w h) id := by
  have hc : ¬(w = 0 ∨ h = 0) := by
    rintro (hc | hc)
    · exact hw hc
    · exact hh hc
  rw [agentPos_eq_pairPos, agentPos_eq_pairPos]
  simp only [AgentManager.layout]
  rw [if_neg hc, if_neg hc]
  show pairPos (placeAgents m₁.order 0 (columnsFor w) (groundYFor h) m₁.agents) id =
    pairPos (placeAgents m₂.order 0 (columnsFor w) (groundYFor h) m₂.agents) id
  rw [← hord]
  exact placeAgents_pos_eq m₁.order 0 (columnsFor w) (groundYFor h) m₁.agents m₂.agents id
    h₁ h₂ (Or.inl hin)

/-- Second concrete registry for the C3 witness: same order list as
`wRegistry`, different agent payload and recorded layout size. -/
def wRegistry2 : AgentManager :=
  { heroRows := 3
    agents := [("a", Agent.initAgent "q" 1)]
    stateById := [("a", CodexState.idle)]
    order := ["a"]
    layoutW := 37
    layoutH := 88 }

/-- Witness for C3: two different registries sharing the order list get
the same position for agent `"a"` at viewport 400 by 300. -/
theorem layout_deterministic_witness :
    agentPos (wRegistry.layout 400 300) "a" = agentPos (wRegistry2.layout 400 300) "a" :=
  layout_deterministic wRegistry wRegistry2 400 300 "a" rfl
    (by decide) (by decide) (by decide) (by decide) (by decide)

end CodexViz

namespace CodexViz

/-- Animation-row index of an agent entry inside a raw agents map. -/
def rowIndexAt (ag : List (String × Agent)) (id : String) : Option Nat :=
  (mlookup ag id).map Agent.rowIndex

theorem rowIndexAt_placeStep (hd id : String) (idx cols gy : Nat)
    (ag : List (String × Agent)) :
    rowIndexAt (placeStep hd idx cols gy ag) id = rowIndexAt ag id := by
  cases hl : mlookup ag hd with
  | none => rw [placeStep, hl]
  | some a =>
      rw [placeStep, hl]
      by_cases hhd : hd = id
      · subst hhd
        unfold rowIndexAt
        rw [mlookup_mset_self, hl]
        rfl
      · unfold rowIndexAt
        rw [mlookup_mset_ne ag hd id _ hhd]

theorem rowIndexAt_placeAgents (ord : List String) (idx cols gy : Nat)
    (ag : List (String × Agent)) (id : String) :
    rowIndexAt (placeAgents ord idx cols gy ag) id = rowIndexAt ag id := by
  induction ord generalizing idx ag with
  | nil => rfl
  | cons hd rest ih => rw [placeAgents, ih, rowIndexAt_placeStep]

theorem rowIndexAt_layout (m : AgentManager) (w h : Nat) (id : String) :
    rowIndexAt (m.layout w h).agents id = rowIndexAt m.agents id := by
  by_cases hc : w = 0 ∨ h = 0 <;>
    simp [AgentManager.layout, hc, rowIndexAt_placeAgents]

theorem rowIndexAt_extract (ag : List (String × Agent)) (id : String) (n : Nat)
    (h : rowIndexAt ag id = some n) :
    ∃ a2, mlookup ag id = some a2 ∧ a2.rowIndex = n := by
  unfold rowIndexAt at h
  cases hl : mlookup ag id with
  | none => rw [hl] at h; exact Option.noConfusion h
  | some a2 =>
      rw [hl] at h
      exact ⟨a2, rfl, Option.some.injEq _ _ ▸ (by simpa using h)⟩

theorem rowIndex_step (m : AgentManager) (ev : CodexEvent) (id : String) (a : Agent)
    (h : mlookup m.agents id = some a) (hne : ev ≠ CodexEvent.remove id) :
    ∃ a2, mlookup (applyEvent m ev).agents id = some a2 ∧ a2.rowIndex = a.rowIndex := by
  have hsetState : ∀ (id2 : String) (s : CodexState) (lbl : Option String),
      ∃ a2, mlookup (m.setState id2 s lbl).agents id = some a2 ∧
        a2.rowIndex = a.rowIndex := by
    intro id2 s lbl
    cases hl : mlookup m.agents id2 with
    | none =>
        simp only [AgentManager.setState, hl]
        exact ⟨a, h, rfl⟩
    | some b =>
        simp only [AgentManager.setState, hl]
        by_cases hid : id2 = id
        · subst hid
          have hba : b = a := by
            rw [h] at hl
            exact Option.some_inj.mp hl.symm
          refine ⟨b.setState s lbl, ?_, ?_⟩
          · exact mlookup_mset_self m.agents id2 _
          · rw [setState_rowIndex, hba]
        · refine ⟨a, ?_, rfl⟩
          rw [mlookup_mset_ne m.agents id2 id _ hid]
          exact h
  cases ev with
  | work id2 lbl => exact hsetState id2 .working lbl
  | idle id2 lbl => exact hsetState id2 .idle lbl
  | done id2 lbl => exact hsetState id2 .done lbl
  | spawn id2 nm =>
      cases hl : mlookup m.agents id2 with
      | some ex =>
          simp only [applyEvent, AgentManager.spawn, hl]
          by_cases hid : id2 = id
          · subst hid
            have hba : ex = a := by
              rw [h] at hl
              exact Option.some_inj.mp hl.symm
            refine ⟨ex.setName (nm.getD "Codex Agent"), ?_, ?_⟩
            · exact mlookup_mset_self m.agents id2 _
            · rw [hba]
              rfl
          · refine ⟨a, ?_, rfl⟩
            rw [mlookup_mset_ne m.agents id2 id _ hid]
            exact h
      | none =>
          have hid : id2 ≠ id := by
            intro hEq
            rw [hEq, h] at hl
            exact Option.noConfusion hl
          simp only [applyEvent, AgentManager.spawn, hl]
          apply rowIndexAt_extract
          rw [rowIndexAt_layout]
          show (mlookup
              (mset m.agents id2
                (Agent.initAgent (nm.getD "Codex Agent")
                  (m.order.length % max 1 (min HERO_MAX_ROWS m.heroRows)))) id).map
            Agent.rowIndex = some a.rowIndex
          rw [mlookup_mset_ne m.agents id2 id _ hid, h]
          rfl
  | remove id2 =>
      have hid : id2 ≠ id := by
        intro hEq
        exact hne (by rw [hEq])
      cases hl : mlookup m.agents id2 with
      | none =>
          simp only [applyEvent, AgentManager.remove, hl]
          exact ⟨a, h, rfl⟩
      | some b =>
          simp only [applyEvent, AgentManager.remove, hl]
          apply rowIndexAt_extract
          rw [rowIndexAt_layout]
          show (mlookup (merase m.agents id2) id).map Agent.rowIndex = some a.rowIndex
          rw [mlookup_merase_ne m.agents id2 id hid, h]
          rfl

end CodexViz

namespace CodexViz

/-- Claim C5 counterexample: the index that determines an agent's grid cell
is not immutable.  From an empty registry laid out at 400 by 300, after
`spawn(a); spawn(b)` agent `b` sits in the second column at `x = 276`;
after `remove(a)` — an operation between `b`'s spawn and `b`'s remove —
the order list compacts and the re-layout moves `b` to the first column at
`x = 116`, so the index assigned to `b` at its spawn no longer determines
its cell. -/
theorem order_index_not_immutable_counterexample :
    agentPos ((((AgentManager.init 3).layout 400 300).spawn "a" none).spawn "b" none) "b" =
      some (276, 216) ∧
    agentPos (((((AgentManager.init 3).layout 400 300).spawn "a" none).spawn "b"
        none).remove "a") "b" = some (116, 216) ∧
    (276 : Int) ≠ 116 := by
  refine ⟨rfl, rfl, by decide⟩

/-- Claim C5 (amended): only the animation-row index is immutable once
assigned: for every agent present in the registry and every sequence of
operations that does not remove that agent (removes of other agents
included), the agent stays present and its `rowIndex` — the value that
selects its animation row, assigned at spawn — never changes.  The grid
cell, by contrast, is recomputed from the agent's current position in the
order list on every re-layout and can change when earlier agents are
removed. -/
theorem agent_rowIndex_immutable (evs : List CodexEvent) (m : AgentManager)
    (id : String) (a : Agent) (h : mlookup m.agents id = some a)
    (hnr : CodexEvent.remove id ∉ evs) :
    ∃ a2, mlookup (evs.foldl applyEvent m).agents id = some a2 ∧
      a2.rowIndex = a.rowIndex := by
  induction evs generalizing m a with
  | nil => exact ⟨a, h, rfl⟩
  | cons ev rest ih =>
      have hne : ev ≠ CodexEvent.remove id := by
        intro hEq
        exact hnr (hEq ▸ List.mem_cons_self ev rest)
      obtain ⟨a1, h1, hrow1⟩ := rowIndex_step m ev id a h hne
      have hnr2 : CodexEvent.remove id ∉ rest := by
        intro hmem
        exact hnr (List.mem_cons_of_mem ev hmem)
      obtain ⟨a2, h2, hrow2⟩ := ih (applyEvent m ev) a1 h1 hnr2
      exact ⟨a2, h2, hrow2.trans hrow1⟩

/-- Witness for the amended C5: agent `"a"` of `wRegistry` keeps its
`rowIndex` across a spawn and a remove of another agent. -/
theorem agent_rowIndex_immutable_witness :
    ∃ a2, mlookup ([CodexEvent.spawn "b" none,
        CodexEvent.remove "b"].foldl applyEvent wRegistry).agents "a" = some a2 ∧
      a2.rowIndex = (Agent.initAgent "n" 0).rowIndex :=
  agent_rowIndex_immutable [CodexEvent.spawn "b" none, CodexEvent.remove "b"]
    wRegistry "a" (Agent.initAgent "n" 0) rfl (by decide)

end CodexViz

namespace CodexViz

/-- Claim C6 counterexample: the order slot freed by a removal can be
reused.  From an empty registry, `spawn(a); spawn(b)` puts `b` at order
index 1; after `remove(b)` the order list compacts to `["a"]`, and the
next `spawn(c)` appends `c` at index 1 — exactly the index the removed
agent `b` held. -/
theorem freed_order_slot_reused_counterexample :
    (((AgentManager.init 3).spawn "a" none).spawn "b" none).order = ["a", "b"] ∧
    List.indexOf "b" ((((AgentManager.init 3).spawn "a" none).spawn "b" none)).order = 1 ∧
    ((((AgentManager.init 3).spawn "a" none).spawn "b" none).remove "b").order = ["a"] ∧
    (((((AgentManager.init 3).spawn "a" none).spawn "b" none).remove "b").spawn "c"
        none).order = ["a", "c"] ∧
    List.indexOf "c" (((((AgentManager.init 3).spawn "a" none).spawn "b" none).remove
        "b").spawn "c" none).order = 1 := by
  refine ⟨rfl, by decide, rfl, rfl, by decide⟩

/-- Claim C6 (amended): every agent spawned after a removal receives an
order index equal to the order list's current length at its spawn — a new
id is appended at the end of the order list, so a fresh id lands at index
`order.length`.  However, because `remove` compacts the order list, the
index the removed agent held can be reassigned to a later spawn (see the
counterexample, where the removed agent held the last slot). -/
theorem spawn_appends_to_order (m : AgentManager) (id : String) (nm : Option String)
    (h : mlookup m.agents id = none) :
    (m.spawn id nm).order = m.order ++ [id] ∧
    (id ∉ m.order → List.indexOf id (m.spawn id nm).order = m.order.length) := by
  have hord : (m.spawn id nm).order = m.order ++ [id] := by
    simp only [AgentManager.spawn, h]
    rw [layout_order]
  refine ⟨hord, ?_⟩
  intro hnm
  rw [hord, List.indexOf_append_of_not_mem hnm]
  simp [List.indexOf_cons_self]

/-- Witness for the amended C6: spawning a fresh id `"c"` onto `wRegistry`
appends it to the order list at index `order.length = 1`. -/
theorem spawn_appends_to_order_witness :
    (wRegistry.spawn "c" none).order = wRegistry.order ++ ["c"] ∧
    ("c" ∉ wRegistry.order →
      List.indexOf "c" (wRegistry.spawn "c" none).order = wRegistry.order.length) :=
  spawn_appends_to_order wRegistry "c" none rfl

end CodexViz

namespace CodexViz

theorem emitLoop_spec (evs : List CodexEvent) (m : AgentManager)
    (lastEv : Option CodexEvent) :
    emitLoop m lastEv evs = (evs.foldl applyEvent m, evs.getLast?.elim lastEv some) := by
  induction evs generalizing m lastEv with
  | nil => rfl
  | cons ev rest ih =>
      rw [emitLoop, ih]
      cases rest with
      | nil => rfl
      | cons r rs =>
          rw [List.getLast?_cons_cons]
          have hsome : ((r :: rs).getLast?).isSome := by
            rw [List.getLast?_isSome]
            exact List.cons_ne_nil r rs
          obtain ⟨x, hx⟩ := Option.isSome_iff_exists.mp hsome
          rw [hx]
          rfl

theorem emit_def (sc : CodexScene) (evs : List CodexEvent) :
    sc.emit evs = { agentManager := evs.foldl applyEvent sc.agentManager
                    hudLastLine := evs.getLast?.elim sc.hudLastLine formatEvent } := by
  unfold CodexScene.emit
  rw [emitLoop_spec]
  cases hl : evs.getLast? with
  | none => rfl
  | some lastEv => rfl

/-- Claim C7: `emit` applies a batch of events to the registry in array
order (a left fold of the event dispatch), the most recently displayed
HUD status line afterwards is the formatted form of the last event of the
batch (unchanged for an empty batch), and emitting a batch is equivalent
to emitting its events one at a time in order. -/
theorem emit_batch_in_order (sc : CodexScene) (evs : List CodexEvent) :
    (sc.emit evs).agentManager = evs.foldl applyEvent sc.agentManager ∧
    (sc.emit evs).hudLastLine = evs.getLast?.elim sc.hudLastLine formatEvent ∧
    sc.emit evs = evs.foldl (fun s e => s.emit [e]) sc := by
  refine ⟨by rw [emit_def], by rw [emit_def], ?_⟩
  induction evs generalizing sc with
  | nil =>
      rw [emit_def]
      rfl
  | cons ev rest ih =>
      rw [List.foldl_cons]
      rw [← ih (sc.emit [ev])]
      rw [emit_def, emit_def, emit_def]
      congr 1
      cases rest with
      | nil => rfl
      | cons r rs =>
          rw [List.getLast?_cons_cons]
          have hsome : ((r :: rs).getLast?).isSome := by
            rw [List.getLast?_isSome]
            exact List.cons_ne_nil r rs
          obtain ⟨x, hx⟩ := Option.isSome_iff_exists.mp hsome
          rw [hx]
          rfl

end CodexViz

namespace CodexViz

/-- Claim C8 counterexample: calling `setState` with the agent's current
state and a new label does not leave the animation alone.  An agent set to
`working` (animation `hero-work-0` playing) that receives
`setState('working', 'Focus')` gets its label updated, but `sprite.play`
is invoked again with the already-playing key — Phaser's `play` without
`ignoreIfPlaying` restarts the animation — so the play log grows by one
repeated entry instead of staying unchanged. -/
theorem same_state_relabel_restarts_counterexample :
    ((Agent.initAgent "n" 0).setState CodexState.working none).state =
      CodexState.working ∧
    (((Agent.initAgent "n" 0).setState CodexState.working none).setState
        CodexState.working (some "Focus")).statusText = "Focus" ∧
    ((Agent.initAgent "n" 0).setState CodexState.working none).playLog =
      ["hero-idle-0", "hero-work-0"] ∧
    (((Agent.initAgent "n" 0).setState CodexState.working none).setState
        CodexState.working (some "Focus")).playLog =
      ["hero-idle-0", "hero-work-0", "hero-work-0"] ∧
    (["hero-idle-0", "hero-work-0", "hero-work-0"] : List String) ≠
      ["hero-idle-0", "hero-work-0"] := by
  refine ⟨rfl, rfl, rfl, rfl, by decide⟩

/-- Visibility of the hammer emote prescribed per state by `setState`. -/
def hammerFor : CodexState → Bool
  | .working => true
  | _ => false

/-- Visibility of the done icon prescribed per state by `setState`. -/
def doneIconFor : CodexState → Bool
  | .done => true
  | _ => false

/-- Visibility of the spark decoration prescribed per state by `setState`. -/
def sparkFor : CodexState → Bool
  | .working => true
  | _ => false

/-- Claim C8 (amended): calling `setState` with the agent's current state
`s` and a new label updates the status label and its colour, and leaves
the state, the decoration visibilities (which are re-assigned their
current values) and every other field unchanged — except that the play
command for the same, unchanged animation key is issued again, restarting
the animation loop (the play log grows by a repeat of the current key). -/
theorem setState_same_state_relabel (a : Agent) (s : CodexState) (l : String)
    (hs : a.state = s) (hh : a.hammerVisible = hammerFor s)
    (hd : a.doneIconVisible = doneIconFor s) (hk : a.sparkVisible = sparkFor s) :
    a.setState s (some l) =
      { a with statusText := l
               statusColor := STATUS_COLORS s
               playLog := a.playLog ++ [animKey s a.rowIndex] } := by
  obtain ⟨nm, row, st, stx, stc, hv, dv, sv, pl, ax, ay⟩ := a
  cases s <;> simp_all [Agent.setState, hammerFor, doneIconFor, sparkFor]

/-- Witness for the amended C8 on a concrete working agent relabelled to
`"Focus"`. -/
theorem setState_same_state_relabel_witness :
    ((Agent.initAgent "n" 0).setState CodexState.working none).setState
        CodexState.working (some "Focus") =
      { (Agent.initAgent "n" 0).setState CodexState.working none with
          statusText := "Focus"
          statusColor := STATUS_COLORS CodexState.working
          playLog := ((Agent.initAgent "n" 0).setState CodexState.working none).playLog ++
            [animKey CodexState.working
              ((Agent.initAgent "n" 0).setState CodexState.working none).rowIndex] } :=
  setState_same_state_relabel ((Agent.initAgent "n" 0).setState CodexState.working none)
    CodexState.working "Focus" rfl rfl rfl rfl

end CodexViz
